import Mathlib

/-!
Verification of the schema-migrator migration execution engine
(src/schema_migrator/executor.py) against its specification.

The Python code is shallowly embedded: Python scalar values become the
inductive type Value, rows (dicts from column name to scalar) become
association lists, and the database queries issued by the executor are
modelled by explicit data passed in an environment structure.  Each
definition is named after the Python method it embeds.  Python string
operations (strip, upper, split, replace, in, startswith, endswith) are
implemented over the character list of the string so that every
definition evaluates by kernel reduction.
-/

namespace SchemaMigrator

/-! ## Python string primitives -/

/-- Python str.startswith, on character lists. -/
def charsStartsWith : List Char → List Char → Bool
  | _, [] => true
  | [], _ :: _ => false
  | c :: cs, p :: ps => c == p && charsStartsWith cs ps

/-- Python (pat in s): substring occurrence test, on character lists. -/
def charsHasSub : List Char → List Char → Bool
  | [], pat => pat.isEmpty
  | c :: cs, pat => charsStartsWith (c :: cs) pat || charsHasSub cs pat

/-- Splitting scan of Python str.split(sep): non-overlapping occurrences,
left to right.  The fuel argument is instantiated with the length of the
subject and only bounds the recursion; each step consumes at least one
character. -/
def charsSplitGo (pat : List Char) : Nat → List Char → List Char → List (List Char)
  | _, [], acc => [acc.reverse]
  | 0, s, acc => [acc.reverse ++ s]
  | fuel + 1, c :: cs, acc =>
    if charsStartsWith (c :: cs) pat then
      acc.reverse :: charsSplitGo pat fuel (cs.drop (pat.length - 1)) []
    else charsSplitGo pat fuel cs (c :: acc)

/-- Replacement scan of Python str.replace(pat, rep): non-overlapping
occurrences, left to right, fuel as in charsSplitGo. -/
def charsReplaceGo (pat rep : List Char) : Nat → List Char → List Char
  | _, [] => []
  | 0, s => s
  | fuel + 1, c :: cs =>
    if charsStartsWith (c :: cs) pat then
      rep ++ charsReplaceGo pat rep fuel (cs.drop (pat.length - 1))
    else c :: charsReplaceGo pat rep fuel cs

/-- Python whitespace, as stripped by str.strip(). -/
def pyIsSpace (c : Char) : Bool :=
  c == ' ' || c == '\t' || c == '\n' || c == '\r' || c == '\x0b' || c == '\x0c'

/-- Python str.upper() on one character (ASCII). -/
def asciiUpper (c : Char) : Char :=
  match ("abcdefghijklmnopqrstuvwxyz".data.zip "ABCDEFGHIJKLMNOPQRSTUVWXYZ".data).find?
      (fun p => p.1 == c) with
  | some p => p.2
  | none => c

/-- Python str.strip(). -/
def pyStrip (s : String) : String :=
  String.mk (((s.data.dropWhile pyIsSpace).reverse.dropWhile pyIsSpace).reverse)

/-- Python str.upper(). -/
def pyUpper (s : String) : String :=
  String.mk (s.data.map asciiUpper)

/-- Python str.startswith(pat). -/
def pyStartsWith (s pat : String) : Bool :=
  charsStartsWith s.data pat.data

/-- Python str.endswith(pat). -/
def pyEndsWith (s pat : String) : Bool :=
  charsStartsWith s.data.reverse pat.data.reverse

/-- Python (pat in s). -/
def hasSub (s pat : String) : Bool :=
  charsHasSub s.data pat.data

/-- Python str.split(sep) for a non-empty separator. -/
def pySplit (s pat : String) : List String :=
  (charsSplitGo pat.data s.data.length s.data []).map String.mk

/-- Python str.replace(pat, rep) for a non-empty pattern. -/
def pyReplace (s pat rep : String) : String :=
  String.mk (charsReplaceGo pat.data rep.data s.data.length s.data)

/-- Python sep.join(parts). -/
def pyJoin (sep : String) (parts : List String) : String :=
  String.mk (List.intercalate sep.data (parts.map String.data))

/-- Python s[n:]. -/
def pyDrop (s : String) (n : Nat) : String :=
  String.mk (s.data.drop n)

/-- Python s[1:-1] used for stripping one quote from each end. -/
def pyUnquote (s : String) : String :=
  String.mk ((s.data.drop 1).dropLast)

/-- Python str.split(sep, 1): split at the first occurrence of sep; the
remainder keeps any further occurrences. -/
def splitFirst (c sep : String) : String × String :=
  match pySplit c sep with
  | [] => (c, "")
  | l :: rest => (l, pyJoin sep rest)

/-! ## Scalar values and rows -/

/-- A Python scalar value as it occurs in source rows and mapping
documents: None, a string, an integer, or a boolean. -/
inductive Value where
  | none : Value
  | str (s : String) : Value
  | int (n : Int) : Value
  | bool (b : Bool) : Value
deriving DecidableEq, Repr

/-- Python str(value): string representation used by the loose equality
comparison in _eval_condition. -/
def pyStr : Value → String
  | Value.none => "None"
  | Value.str s => s
  | Value.int n => toString n
  | Value.bool b => if b then "True" else "False"

/-- Python truthiness of a scalar: None, the empty string, 0 and False
are falsy. -/
def Value.truthy : Value → Bool
  | Value.none => false
  | Value.str s => !s.isEmpty
  | Value.int n => decide (n ≠ 0)
  | Value.bool b => b

/-- A source row: a dict from column name to scalar value, modelled as an
association list in insertion order. -/
abbrev Row := List (String × Value)

/-- Python row.get(k, d): value of the first binding of k, else d. -/
def rowGetD (r : Row) (k : String) (d : Value) : Value :=
  match r.find? (fun p => p.1 == k) with
  | some p => p.2
  | Option.none => d

/-- Python row.get(k): defaults to None when k is absent. -/
def rowGet (r : Row) (k : String) : Value :=
  rowGetD r k Value.none

/-- Python (k in row, row[k]): some value iff the key is present. -/
def rowFind (r : Row) (k : String) : Option Value :=
  (r.find? (fun p => p.1 == k)).map (fun p => p.2)

/-- Python row[k] = v: dict assignment, overwriting in place or appending
a fresh key at the end (insertion order). -/
def rowSet (r : Row) (k : String) (v : Value) : Row :=
  if r.any (fun p => p.1 == k) then
    r.map (fun p => if p.1 == k then (k, v) else p)
  else r ++ [(k, v)]

/-! ## Expression evaluator -/

/-- Embeds _eval_value: evaluate a SQL value expression against a row.
NULL keyword, quoted string literal, table-prefix stripping, backtick
removal, then row.get(value, value). -/
def eval_value (value : String) (row : Row) : Value :=
  let v := pyStrip value
  if pyUpper v == "NULL" then Value.none
  else if (pyStartsWith v "\x27" && pyEndsWith v "\x27")
       || (pyStartsWith v "\"" && pyEndsWith v "\"") then
    Value.str (pyUnquote v)
  else
    let v := if hasSub v "." then (pySplit v ".").getLastD v else v
    let v := pyReplace v "\x60" ""
    rowGetD row v (Value.str v)

/-- Embeds _eval_condition: evaluate a SQL condition against a row.  An
empty condition is vacuously true; equality and inequality compare the
str() representations of both evaluated operands; IS NULL strips the
keyword and checks row.get(col) is None; anything else is false. -/
def eval_condition (condition : String) (row : Row) : Bool :=
  if condition.isEmpty then true
  else if hasSub condition " = " then
    let p := splitFirst condition " = "
    pyStr (eval_value (pyStrip p.1) row) == pyStr (eval_value (pyStrip p.2) row)
  else if hasSub condition " != " || hasSub condition " <> " then
    let sep := if hasSub condition " != " then " != " else " <> "
    let p := splitFirst condition sep
    pyStr (eval_value (pyStrip p.1) row) != pyStr (eval_value (pyStrip p.2) row)
  else if hasSub (pyUpper condition) "IS NULL" then
    let col := pyStrip (pyReplace (pyReplace condition "IS NULL" "") "is null" "")
    let col := pyReplace (pyReplace col "ss." "") "\x60" ""
    decide (rowGet row col = Value.none)
  else false

/-- Case-insensitive character comparison of the IGNORECASE regex
flag (ASCII). -/
def charEqCI (a b : Char) : Bool :=
  asciiUpper a == asciiUpper b

/-- Case-insensitive prefix test for the literal keywords of the
regexes of _eval_case_statement. -/
def charsStartsWithCI : List Char → List Char → Bool
  | _, [] => true
  | [], _ :: _ => false
  | c :: cs, p :: ps => charEqCI c p && charsStartsWithCI cs ps

/-- Length of the leading whitespace run. -/
def wsRun : List Char → Nat
  | [] => 0
  | c :: cs => if pyIsSpace c then wsRun cs + 1 else 0

/-- A greedy whitespace run followed by a literal keyword whose first
character is not whitespace: only the maximal run can precede the
keyword, so this piece of the pattern is deterministic.  Returns the
remainder after the keyword. -/
def matchWsKeyword (kw : List Char) (cs : List Char) : Option (List Char) :=
  let j := wsRun cs
  if j == 0 then Option.none
  else
    let rest := cs.drop j
    if charsStartsWithCI rest kw then some (rest.drop kw.length) else Option.none

/-- A lazy group of the regex followed by an arbitrary continuation:
consume at least one character (DOTALL, so any character), preferring
the shortest group whose continuation succeeds, as the backtracking
engine does for a lazy quantifier.  The fuel is the length of the
remaining subject. -/
def matchLazyCont {α : Type} (cont : List Char → Option α) :
    Nat → List Char → List Char → Option (List Char × α)
  | _, _, [] => Option.none
  | 0, _, _ => Option.none
  | fuel + 1, acc, c :: cs =>
    match cont cs with
    | some r => some (acc ++ [c], r)
    | Option.none => matchLazyCont cont fuel (acc ++ [c]) cs

/-- A greedy whitespace run followed by a lazy group and a
continuation: the engine prefers the longest whitespace first and,
within each choice, the shortest group.  The counter starts at the
length of the leading whitespace run and decreases. -/
def matchWsLazyContGo {α : Type} (cont : List Char → Option α) (cs : List Char) :
    Nat → Option (List Char × α)
  | 0 => Option.none
  | j + 1 =>
    match matchLazyCont cont (cs.drop (j + 1)).length [] (cs.drop (j + 1)) with
    | some res => some res
    | Option.none => matchWsLazyContGo cont cs j

/-- Whitespace then lazy group then continuation, with the backtracking
preferences of the engine. -/
def matchWsLazyCont {α : Type} (cont : List Char → Option α) (cs : List Char) :
    Option (List Char × α) :=
  matchWsLazyContGo cont cs (wsRun cs)

/-- The terminator alternation of the WHEN/THEN pattern of
_eval_case_statement (whitespace then WHEN, ELSE or END), tried left to
right.  The remainder starts after the consumed keyword, so a WHEN
consumed here is lost to the continuing scan. -/
def matchCaseTerm (cs : List Char) : Option (List Char) :=
  match matchWsKeyword "WHEN".data cs with
  | some r => some r
  | Option.none =>
    match matchWsKeyword "ELSE".data cs with
    | some r => some r
    | Option.none => matchWsKeyword "END".data cs

/-- The tail of the WHEN/THEN pattern after the condition group:
whitespace, THEN, whitespace, the lazy value group and the terminator;
returns the value group and the remainder after the whole match. -/
def matchThenPart (cs : List Char) : Option (List Char × List Char) :=
  match matchWsKeyword "THEN".data cs with
  | some r => matchWsLazyCont matchCaseTerm r
  | Option.none => Option.none

/-- An attempt of the whole WHEN/THEN pattern at the head of the
subject: literal WHEN, whitespace, lazy condition group, then the tail;
returns the condition group, the value group and the remainder after
the match. -/
def matchWhenThenAt (cs : List Char) : Option (List Char × List Char × List Char) :=
  if charsStartsWithCI cs "WHEN".data then
    matchWsLazyCont matchThenPart (cs.drop 4)
  else Option.none

/-- The re.findall scan of the WHEN/THEN pattern: try the pattern at
every position left to right, appending the groups of each match and
resuming right after it (past the consumed terminator keyword, which
is how a multi-WHEN CASE loses every second clause), else advancing one
character.  Fuel is the subject length. -/
def caseFindallGo : Nat → List Char → List (List Char × List Char)
  | 0, _ => []
  | _, [] => []
  | fuel + 1, c :: cs =>
    match matchWhenThenAt (c :: cs) with
    | some (cond, value, rest) => (cond, value) :: caseFindallGo fuel rest
    | Option.none => caseFindallGo fuel cs

/-- Embeds the re.findall extraction of the WHEN/THEN pairs performed
by _eval_case_statement. -/
def caseFindall (sql : String) : List (String × String) :=
  (caseFindallGo sql.data.length sql.data).map (fun p => (String.mk p.1, String.mk p.2))

/-- An attempt of the ELSE pattern at the head of the subject: literal
ELSE, whitespace, lazy group, whitespace, END. -/
def matchElseAt (cs : List Char) : Option (List Char) :=
  if charsStartsWithCI cs "ELSE".data then
    match matchWsLazyCont (fun r => matchWsKeyword "END".data r) (cs.drop 4) with
    | some (g, _) => some g
    | Option.none => Option.none
  else Option.none

/-- The re.search scan of the ELSE pattern: the first position where it
matches, returning its captured group. -/
def caseSearchElseGo : Nat → List Char → Option (List Char)
  | 0, _ => Option.none
  | _, [] => Option.none
  | fuel + 1, c :: cs =>
    match matchElseAt (c :: cs) with
    | some g => some g
    | Option.none => caseSearchElseGo fuel cs

/-- Embeds the re.search ELSE extraction of _eval_case_statement. -/
def caseSearchElse (sql : String) : Option String :=
  (caseSearchElseGo sql.data.length sql.data).map String.mk

/-- The loop of _eval_case_statement over the extracted pairs: scan
them in order, return the first value whose condition holds, fall back
to the ELSE value, else None. -/
def evalCaseClauses (whenClauses : List (String × String))
    (elseClause : Option String) (row : Row) : Value :=
  match whenClauses with
  | [] =>
    match elseClause with
    | some e => eval_value (pyStrip e) row
    | Option.none => Value.none
  | (c, v) :: rest =>
    if eval_condition (pyStrip c) row then eval_value (pyStrip v) row
    else evalCaseClauses rest elseClause row

/-- Embeds _eval_case_statement: extract the WHEN/THEN pairs with the
re.findall pattern and the ELSE value with the re.search pattern, then
evaluate the pairs in extraction order with ELSE fallback and None
default.  Because the findall pattern terminates each match by
consuming the following WHEN keyword, the extraction drops every
second WHEN/THEN clause of a multi-WHEN CASE. -/
def eval_case_statement (sql : String) (row : Row) : Value :=
  evalCaseClauses (caseFindall sql) (caseSearchElse sql) row

/-- Python regex word character (ASCII). -/
def isWordChar (c : Char) : Bool :=
  (97 ≤ c.toNat && c.toNat ≤ 122) || (65 ≤ c.toNat && c.toNat ≤ 90)
  || (48 ≤ c.toNat && c.toNat ≤ 57) || c == '_'

/-- The re.match of SELECT followed by whitespace and a column word in
_evaluate_sql_transform, returning the captured column name. -/
def selectColumn (sql : String) : Option String :=
  let rest := (sql.data.drop 6)
  let ws := rest.takeWhile pyIsSpace
  if ws.isEmpty then Option.none
  else
    let w := (rest.drop ws.length).takeWhile isWordChar
    if w.isEmpty then Option.none else some (String.mk w)

/-- Embeds _evaluate_sql_transform: dispatch on the shape of the
expression text.  Empty text returns None; CASE goes to the CASE
evaluator; SELECT extracts the selected column name and reads it from
the row (falling through to the plain lookup when the regex does not
match); anything else is read from the row as a bare column name. -/
def evaluate_sql_transform (sql_transform : String) (row : Row) : Value :=
  if sql_transform.isEmpty then Value.none
  else
    let sql := pyStrip sql_transform
    if pyStartsWith (pyUpper sql) "CASE" then
      eval_case_statement sql row
    else if pyStartsWith (pyUpper sql) "SELECT" then
      match selectColumn sql with
      | some col => rowGet row col
      | Option.none => rowGet row sql
    else rowGet row sql

/-! ## FK chain resolver -/

/-- One step of a lookup chain, with the seven keys _resolve_fk_chain
reads from the step dict; absent keys are None. -/
structure ChainStep where
  old_table : Option String := Option.none
  old_column : Option String := Option.none
  lookup_in : Option String := Option.none
  lookup_column : Option String := Option.none
  return_column : Option String := Option.none
  new_table : Option String := Option.none
  new_column : Option String := Option.none
deriving DecidableEq, Repr

/-- Python truthiness of an optional string field of a step dict. -/
def strTruthy : Option String → Bool
  | some s => !s.isEmpty
  | Option.none => false

/-- One entry of the universal ID mapping cache id_mappings, flattening
the nested dicts table -> column -> old value -> new id. -/
structure CacheEntry where
  table : String
  column : String
  oldValue : Value
  newId : Int
deriving DecidableEq, Repr

/-- The nested presence-and-get of id_mappings[table][column].get(v). -/
def cacheResolve (cache : List CacheEntry) (table column : String) (v : Value) : Option Int :=
  (cache.find? (fun e => e.table == table && e.column == column
      && decide (e.oldValue = v))).map (fun e => e.newId)

/-- One row of a destination table visible to _lookup_in_new_schema,
keyed by the (database, table, column, value) equality query it answers
and carrying the id column returned. -/
structure NewRowId where
  db : String
  table : String
  column : String
  value : Value
  id : Int
deriving DecidableEq, Repr

/-- The databases the executor queries, passed explicitly: the legacy
source tables read by _lookup_in_old_schema, the destination rows read
by _lookup_in_new_schema, and the in-memory id_mappings cache. -/
structure Env where
  oldDB : List (String × List Row)
  newDB : List NewRowId
  cache : List CacheEntry
deriving Repr

/-- Embeds _lookup_in_old_schema: SELECT * FROM table WHERE col = v
LIMIT 1 against the legacy database, modelled as the first row of the
named table whose column equals the value; a missing table (the caught
SQL error) and an empty result both yield None. -/
def lookup_in_old_schema (db : List (String × List Row)) (table lookupColumn : String)
    (v : Value) : Option Row :=
  match db.find? (fun p => p.1 == table) with
  | some p => p.2.find? (fun r => decide (rowGet r lookupColumn = v))
  | Option.none => Option.none

/-- Embeds _lookup_in_new_schema: SELECT id FROM table WHERE col = v
LIMIT 1 against the destination database named target_db; errors and
empty results both yield None. -/
def lookup_in_new_schema (db : List NewRowId) (targetDb table lookupColumn : String)
    (v : Value) : Option Int :=
  (db.find? (fun e => e.db == targetDb && e.table == table
      && e.column == lookupColumn && decide (e.value = v))).map (fun e => e.id)

/-- The return-column extraction of _resolve_fk_chain after an
intra-source lookup: the declared return column when present in the
row, else the username column, else the first non-id column with a
truthy value, else the incoming value unchanged. -/
def extractReturn (rowResult : Row) (rc : Option String) (curr : Value) : Value :=
  let fallback :=
    match rowFind rowResult "username" with
    | some v => v
    | Option.none =>
      match rowResult.find? (fun p =>
          !(p.1 == "id" || p.1 == "Id" || p.1 == "ID") && p.2.truthy) with
      | some p => p.2
      | Option.none => curr
  match rc with
  | some c =>
    if !c.isEmpty then
      match rowFind rowResult c with
      | some v => v
      | Option.none => fallback
    else fallback
  | Option.none => fallback

/-- The loop body of _resolve_fk_chain, indexed by the running step
index and the current value.  Step 0 reads the declared source column
from the source row and aborts on a falsy value; a step with truthy
lookup_in and lookup_column performs an intra-source hop and aborts when
the lookup or the extracted value fails; a step with truthy new_table
and new_column returns the cache hit when truthy, else the direct
destination query result, ending the chain. -/
def resolveGo (env : Env) (targetDb : String) (sourceRow : Row) :
    List ChainStep → Nat → Value → Option Int
  | [], _, _ => Option.none
  | step :: rest, idx, curr =>
    let curr0 : Option Value :=
      if idx == 0 then
        let v := match step.old_column with
          | some c => rowGet sourceRow c
          | Option.none => Value.none
        if v.truthy then some v else Option.none
      else some curr
    match curr0 with
    | Option.none => Option.none
    | some curr1 =>
      let curr2 : Option Value :=
        if strTruthy step.lookup_in && strTruthy step.lookup_column then
          match lookup_in_old_schema env.oldDB (step.lookup_in.getD "")
              (step.lookup_column.getD "") curr1 with
          | Option.none => Option.none
          | some rowResult =>
            let v := extractReturn rowResult step.return_column curr1
            if v.truthy then some v else Option.none
        else some curr1
      match curr2 with
      | Option.none => Option.none
      | some curr3 =>
        if strTruthy step.new_table && strTruthy step.new_column then
          let nt := step.new_table.getD ""
          let nc := step.new_column.getD ""
          match cacheResolve env.cache nt nc curr3 with
          | some rid =>
            if rid ≠ 0 then some rid
            else lookup_in_new_schema env.newDB targetDb nt nc curr3
          | Option.none => lookup_in_new_schema env.newDB targetDb nt nc curr3
        else resolveGo env targetDb sourceRow rest (idx + 1) curr3

/-- Embeds _resolve_fk_chain: process the chain steps in order starting
from step index 0; an empty chain resolves to None. -/
def resolve_fk_chain (env : Env) (targetDb : String) (sourceRow : Row)
    (chain : List ChainStep) : Option Int :=
  resolveGo env targetDb sourceRow chain 0 Value.none

/-! ## Field value extraction and row construction -/

/-- Embeds _get_field_value: a truthy lookup chain resolves through
_resolve_fk_chain, a non-None result is returned as the value and a
failed resolution yields None; otherwise the base value is read from
the source row; a destination column named user_id is answered from the
users/username id-mapping cache or set to None; otherwise the optional
SQL transformation applies (an absent or empty transformation string
and a full INSERT statement all fall back to the base value). -/
def get_field_value (env : Env) (targetDb : String) (row : Row)
    (old_field new_field : String) (sql_transform : Option String)
    (lookup_chain : Option (List ChainStep)) : Value :=
  let chainTruthy := match lookup_chain with
    | some c => !c.isEmpty
    | Option.none => false
  if chainTruthy then
    match resolve_fk_chain env targetDb row (lookup_chain.getD []) with
    | some rid => Value.int rid
    | Option.none => Value.none
  else
    let base := rowGet row old_field
    if new_field == "user_id" then
      let username := rowGetD row "username" base
      match (if username.truthy then cacheResolve env.cache "users" "username" username
             else Option.none) with
      | some rid => Value.int rid
      | Option.none => Value.none
    else
      match sql_transform with
      | Option.none => base
      | some t =>
        if t.isEmpty then base
        else if hasSub (pyUpper t) "INSERT INTO" then base
        else evaluate_sql_transform t row

/-- One grouped field target as built by _group_targets: the source
column, destination column, and the optional sql, condition and
lookup_chain of the target. -/
structure FieldInfo where
  old_field : String
  new_field : String
  sql : Option String := Option.none
  condition : Option String := Option.none
  lookup_chain : Option (List ChainStep) := Option.none
deriving DecidableEq, Repr

/-- The insert_data construction of _migrate_to_target for one source
row: fields whose truthy condition evaluates false are skipped, every
other field is assigned its extracted value. -/
def buildInsertData (env : Env) (targetDb : String) (row : Row)
    (fields : List FieldInfo) : Row :=
  fields.foldl (fun acc fi =>
    if strTruthy fi.condition && !eval_condition (fi.condition.getD "") row then acc
    else rowSet acc fi.new_field
      (get_field_value env targetDb row fi.old_field fi.new_field fi.sql fi.lookup_chain)) []

/-! ## Mapping model and target grouping -/

/-- One Target of the new mapping format: destination database kind
(defaulting to tenant when absent), destination table and column, and
the optional transformation fields. -/
structure Target where
  db : Option String := Option.none
  table : String
  column : String
  sql : Option String := Option.none
  condition : Option String := Option.none
  lookup_chain : Option (List ChainStep) := Option.none
deriving DecidableEq, Repr

/-- One field mapping value: the new format carries a list of Targets
under the targets key, the old format a single table.column string plus
the optional transformation keys, and other denotes a value that is not
a dict or has neither key (skipped). -/
inductive Mapping where
  | newFormat (targets : List Target)
  | oldFormat (target : String) (sql : Option String)
      (condition : Option String) (lookup_chain : Option (List ChainStep))
  | other
deriving DecidableEq, Repr

/-- A parsed mapping document: source table name to field name to
mapping, in document order. -/
abbrev MappingDoc := List (String × List (String × Mapping))

/-- Embeds the mapping loading of MigrationExecutor.__init__: the parsed
JSON document is stored as-is; no validation of any kind is performed,
so loading never fails for any parsed document. -/
def loadMappings (doc : MappingDoc) : Except String MappingDoc :=
  Except.ok doc

/-- Appending to a grouped dict-of-lists entry, creating the key at the
end on first use (insertion order). -/
def addToGroup (gs : List (String × List FieldInfo)) (k : String) (fi : FieldInfo) :
    List (String × List FieldInfo) :=
  if gs.any (fun p => p.1 == k) then
    gs.map (fun p => if p.1 == k then (p.1, p.2 ++ [fi]) else p)
  else gs ++ [(k, fi :: [])]

/-- Embeds _group_targets: group the field targets of one source table
by destination table, keeping only targets whose database kind (in the
new format, the db key defaulting to tenant) equals the requested kind;
old-format entries require a dotted table.column string and belong to
the tenant kind only; fields with a leading underscore and non-dict
mappings are skipped. -/
def group_targets (field_mappings : List (String × Mapping)) (target_db_type : String) :
    List (String × List FieldInfo) :=
  field_mappings.foldl (fun gs fm =>
    let old_field := fm.1
    if pyStartsWith old_field "_" then gs
    else
      match fm.2 with
      | Mapping.newFormat targets =>
        targets.foldl (fun gs target =>
          let db := target.db.getD "tenant"
          if db != target_db_type then gs
          else addToGroup gs target.table
            ⟨old_field, target.column, target.sql, target.condition, target.lookup_chain⟩) gs
      | Mapping.oldFormat target sql condition lookup_chain =>
        if !target.isEmpty && hasSub target "." then
          if target_db_type != "tenant" then gs
          else
            let p := splitFirst target "."
            addToGroup gs p.1 ⟨old_field, p.2, sql, condition, lookup_chain⟩
        else gs
      | Mapping.other => gs) []

/-! ## Target-table dependency sort -/

/-- The hand-maintained FK dependency table of
_sort_targets_by_dependency: dependent table to the tables it depends
on. -/
def dependenciesTable : List (String × List String) :=
  [("processing_jobs", ["series", "users"]),
   ("series", ["studies"]),
   ("studies", ["patients"]),
   ("job_reports", ["processing_jobs"]),
   ("job_report_data", ["job_reports"]),
   ("sessions", ["users"]),
   ("devlog", ["users"]),
   ("audit_log", ["users"]),
   ("oauth_state", ["users"]),
   ("rsi_config", ["services"]),
   ("user_licenses", ["services"])]

/-- dependencies.get(table, []). -/
def depsOf (t : String) : List String :=
  match dependenciesTable.find? (fun p => p.1 == t) with
  | some p => p.2
  | Option.none => []

/-- The dep_graph built for one sort: declared dependencies restricted
to the tables of this migration; tables outside the input have no entry
(dep_graph.get defaults to the empty list). -/
def depGraph (tables : List String) (t : String) : List String :=
  if t ∈ tables then (depsOf t).filter (fun d => d ∈ tables) else []

/-- The mutable state of the topological sort: the output list, the
visited set and the currently-visiting marker set. -/
structure DfsState where
  sortedTables : List String
  visited : List String
  temp : List String
deriving DecidableEq, Repr

/-- The inner loop of visit over the dependency list: apply the step
function to each dependency in order, threading the state. -/
def visitListWith (f : String → DfsState → DfsState) :
    List String → DfsState → DfsState
  | [], s => s
  | d :: ds, s => visitListWith f ds (f d s)

/-- Embeds the recursive visit of _sort_targets_by_dependency: a node in
the currently-visiting set (a cycle back-edge) or already visited is
skipped; otherwise it is marked, its restricted dependencies are visited
first, and it is appended to the output and the visited set.  The
Python recursion is unbounded; here it is fuel-bounded, and the fuel
used by the sort (one more than the number of input tables) is shown
below never to run out, because the currently-visiting set grows by one
distinct input table along every chain of nested calls. -/
def visit (g : String → List String) : Nat → String → DfsState → DfsState
  | 0, _, s => s
  | fuel + 1, t, s =>
    if t ∈ s.temp then s
    else if t ∈ s.visited then s
    else
      let s2 := visitListWith (fun d s' => visit g fuel d s') (g t)
        { s with temp := t :: s.temp }
      { s2 with temp := s2.temp.erase t,
                visited := t :: s2.visited,
                sortedTables := s2.sortedTables ++ [t] }

/-- Embeds _sort_targets_by_dependency: build the restricted dependency
graph, then run the depth-first sort over the input tables in order,
visiting each table not yet visited. -/
def sort_targets_by_dependency (tables : List String) : List String :=
  let g := depGraph tables
  (tables.foldl (fun s t => if t ∈ s.visited then s else visit g (tables.length + 1) t s)
    ⟨[], [], []⟩).sortedTables

/-- A rank on table names that strictly decreases along every edge of
the fixed dependency table, witnessing that the declared graph (and
hence any restriction of it) is acyclic. -/
def rank (t : String) : Nat :=
  if t == "studies" then 1
  else if t == "series" then 2
  else if t == "processing_jobs" then 3
  else if t == "job_reports" then 4
  else if t == "job_report_data" then 5
  else if t == "sessions" then 1
  else if t == "devlog" then 1
  else if t == "audit_log" then 1
  else if t == "oauth_state" then 1
  else if t == "rsi_config" then 1
  else if t == "user_licenses" then 1
  else 0

/-- Ordering invariant of the visited list (which grows by prepending):
every restricted dependency of a visited table occurs strictly deeper,
that is, was appended to the output strictly earlier. -/
def SortedInv (g : String → List String) (s : DfsState) : Prop :=
  ∀ (l₁ : List String) (t : String) (l₂ : List String),
    s.visited = l₁ ++ t :: l₂ → ∀ p ∈ g t, p ∈ l₂

/-! ## Site migration orchestrator -/

/-- The fixed head of _get_migration_order. -/
def migrationOrderBase : List String :=
  ["sysadmin_systemsettings",
   "patients", "studies", "series", "processing_jobs",
   "job_reports", "job_report_data", "dicom_tags",
   "services", "container_description", "user_licenses", "rsi_config",
   "session", "oauth_state", "output_routing",
   "devlog", "audit"]

/-- Embeds _get_migration_order: the fixed table order followed by any
mapped table not already in it whose name does not start with an
underscore. -/
def get_migration_order (mappingKeys : List String) : List String :=
  mappingKeys.foldl (fun order t =>
    if t ∉ order && !pyStartsWith t "_" then order ++ [t] else order)
    migrationOrderBase

/-- Embeds _get_site_filters: the columns of the source table decide the
filter; a username column filters by the site username, else an
account_id column filters by the site numeric id, else (and also when
the column query fails, modelled by a None column list) the table is
skipped. -/
def get_site_filters (columns : Option (List String)) (site_info : Row) :
    Option (List (String × Value)) :=
  match columns with
  | Option.none => Option.none
  | some cols =>
    if "username" ∈ cols then some [("username", rowGet site_info "username")]
    else if "account_id" ∈ cols then some [("account_id", rowGet site_info "id")]
    else Option.none

/-- Whether a modelled call outcome is a raised exception. -/
def isRaise {α : Type} (e : Except String α) : Bool :=
  match e with
  | Except.error _ => true
  | Except.ok _ => false

/-- An externally observable action of migrate_site: the central
registry upsert attempt, or one migrate_table invocation for a source
table and a destination database kind. -/
inductive Event where
  | register : Event
  | migrateTable (table : String) (dbType : String) : Event
deriving DecidableEq, Repr

/-- The stats dict returned by migrate_site. -/
structure SiteStats where
  tenant_tables : Nat
  central_tables : Nat
  total_rows : Nat
  errors : List (String × String)
deriving DecidableEq, Repr

/-- The environment of one migrate_site run: the outcome of the central
registry upsert issued by _register_site_in_central, the column list of
each source table (None models the caught introspection failure), and
the outcome of each migrate_table invocation, by source table and
destination database kind (an error value models the exception the call
raises). -/
structure SiteEnv where
  registerResult : Except String Unit
  columnsOf : String → Option (List String)
  migrateTableResult : String → String → Except String Nat

/-- The per-table body of the migrate_site loop: migrate to the tenant
database, then to the central database, counting tables with migrated
rows and total rows; an exception from either call is recorded in the
errors list (stats already accumulated for the tenant call are kept)
and ends the body for this table. -/
def processTable (env : SiteEnv) (acc : SiteStats × List Event) (t : String) :
    SiteStats × List Event :=
  let st := acc.1
  let ev := acc.2
  match env.migrateTableResult t "tenant" with
  | Except.error e =>
    ({ st with errors := st.errors ++ [(t, e)] }, ev ++ [Event.migrateTable t "tenant"])
  | Except.ok n =>
    let st := if n > 0 then
        { st with tenant_tables := st.tenant_tables + 1, total_rows := st.total_rows + n }
      else st
    match env.migrateTableResult t "central" with
    | Except.error e =>
      ({ st with errors := st.errors ++ [(t, e)] },
        ev ++ [Event.migrateTable t "tenant", Event.migrateTable t "central"])
    | Except.ok m =>
      let st := if m > 0 then
          { st with central_tables := st.central_tables + 1, total_rows := st.total_rows + m }
        else st
      (st, ev ++ [Event.migrateTable t "tenant", Event.migrateTable t "central"])

/-- Embeds migrate_site: a site_info without a truthy username raises
ValueError before anything else; then the central registry upsert runs,
and its failure is recorded as the sites_registry error and returned at
once with zero counts; otherwise every table of the migration order
that is mapped, not underscore-prefixed and not filtered out is
migrated to the tenant and the central databases, accumulating stats.
The returned pair is the Python return value (or the raised error) and
the chronological list of performed actions. -/
def migrate_site (env : SiteEnv) (mappingKeys : List String) (site_info : Row) :
    Except String SiteStats × List Event :=
  let username := rowGet site_info "username"
  if !username.truthy then
    (Except.error "site_info must contain \x27username\x27", [])
  else
    match env.registerResult with
    | Except.error e =>
      (Except.ok ⟨0, 0, 0, [("sites_registry", e)]⟩, [Event.register])
    | Except.ok _ =>
      let order := get_migration_order mappingKeys
      let res := order.foldl (fun acc t =>
        if t ∉ mappingKeys || pyStartsWith t "_" then acc
        else match get_site_filters (env.columnsOf t) site_info with
          | Option.none => acc
          | some _ => processTable env acc t)
        (⟨0, 0, 0, []⟩, [Event.register])
      (Except.ok res.1, res.2)


/-! ## Theorems -/

/-- Helper: the clause loop of _eval_case_statement returns the value
of the first supplied pair whose condition holds, with ELSE fallback
and None default. -/
theorem evalCaseClauses_first_match :
    ∀ (whenClauses : List (String × String)) (elseClause : Option String) (row : Row),
      evalCaseClauses whenClauses elseClause row =
        match whenClauses.find? (fun m => eval_condition (pyStrip m.1) row) with
        | some m => eval_value (pyStrip m.2) row
        | Option.none =>
          match elseClause with
          | some e => eval_value (pyStrip e) row
          | Option.none => Value.none := by
  intro whenClauses elseClause row
  induction whenClauses with
  | nil => cases elseClause <;> rfl
  | cons m rest ih =>
    obtain ⟨c, v⟩ := m
    by_cases h : eval_condition (pyStrip c) row
    · rw [List.find?_cons_of_pos _ (by simpa using h)]
      simp [evalCaseClauses, h]
    · rw [List.find?_cons_of_neg _ (by simpa using h)]
      simp only [evalCaseClauses, if_neg h]
      exact ih

/-- C1 counterexample: the WHEN/THEN regex of _eval_case_statement
terminates each match by consuming the following WHEN keyword, so the
extraction of a two-WHEN CASE keeps only the first pair.  On a row
where the first condition is false and the second is true, the claimed
in-order first-match evaluation would return y, but the program falls
through to the ELSE value z. -/
theorem case_statement_drops_second_when :
    caseFindall
        "CASE WHEN a = 1 THEN \x27x\x27 WHEN b = 2 THEN \x27y\x27 ELSE \x27z\x27 END"
      = [("a = 1", "\x27x\x27")]
    ∧ eval_condition "a = 1" [("a", Value.int 2), ("b", Value.int 2)] = false
    ∧ eval_condition "b = 2" [("a", Value.int 2), ("b", Value.int 2)] = true
    ∧ eval_case_statement
        "CASE WHEN a = 1 THEN \x27x\x27 WHEN b = 2 THEN \x27y\x27 ELSE \x27z\x27 END"
        [("a", Value.int 2), ("b", Value.int 2)] = Value.str "z"
    ∧ Value.str "z" ≠ Value.str "y" := by
  refine ⟨by decide, by decide, by decide, by decide, by decide⟩

/-- C1 amended: evaluating a CASE expression scans the WHEN/THEN pairs
that the findall regex extracts — the pattern consumes the WHEN keyword
that follows each match, so every second WHEN/THEN clause of a
multi-WHEN CASE is dropped before evaluation — and returns the
evaluated value of the first extracted pair whose condition is true,
falls back to the extracted ELSE value, and returns None when there is
no ELSE match and no condition matched.  For a single-WHEN CASE the
extraction keeps the one pair, so the concrete spec examples hold as
stated: the CASE over username returns A on a row with username x and
B on a row with username y, and the CASE over email IS NULL returns
None on a row with email None. -/
theorem case_statement_first_extracted_match :
    (∀ (sql : String) (row : Row),
      eval_case_statement sql row =
        match (caseFindall sql).find? (fun m => eval_condition (pyStrip m.1) row) with
        | some m => eval_value (pyStrip m.2) row
        | Option.none =>
          match caseSearchElse sql with
          | some e => eval_value (pyStrip e) row
          | Option.none => Value.none)
    ∧ caseFindall "CASE WHEN username = \x27x\x27 THEN \x27A\x27 ELSE \x27B\x27 END"
        = [("username = \x27x\x27", "\x27A\x27")]
    ∧ eval_case_statement "CASE WHEN username = \x27x\x27 THEN \x27A\x27 ELSE \x27B\x27 END"
        [("username", Value.str "x")] = Value.str "A"
    ∧ eval_case_statement "CASE WHEN username = \x27x\x27 THEN \x27A\x27 ELSE \x27B\x27 END"
        [("username", Value.str "y")] = Value.str "B"
    ∧ eval_case_statement "CASE WHEN email IS NULL THEN NULL ELSE email END"
        [("email", Value.none)] = Value.none := by
  refine ⟨?_, by decide, by decide, by decide, by decide⟩
  intro sql row
  exact evalCaseClauses_first_match (caseFindall sql) (caseSearchElse sql) row

/-- C8: a condition containing the equality separator is evaluated by
comparing the str() representations of the two evaluated operands of
its first occurrence, so values of different types can compare equal;
in particular boolean False equals the string False. -/
theorem equality_condition_str_coercion :
    (∀ (c : String) (row : Row), hasSub c " = " = true →
      eval_condition c row =
        (pyStr (eval_value (pyStrip (splitFirst c " = ").1) row)
          == pyStr (eval_value (pyStrip (splitFirst c " = ").2) row)))
    ∧ eval_condition "flag = \x27False\x27" [("flag", Value.bool false)] = true := by
  refine ⟨?_, by decide⟩
  intro c row h
  have hne : c.isEmpty = false := by
    cases hc : c.isEmpty
    · rfl
    · have : c = "" := (String.isEmpty_iff c).mp hc
      subst this
      simp [hasSub, charsHasSub] at h
  simp only [eval_condition, hne, Bool.false_eq_true, if_false, h, if_true]

/-- C8 witness: the general equality-coercion clause applied to the
concrete condition comparing an email column with a literal. -/
theorem equality_condition_str_coercion_witness :
    eval_condition "email = \x27a@b.c\x27" [("email", Value.str "a@b.c")] =
      (pyStr (eval_value (pyStrip (splitFirst "email = \x27a@b.c\x27" " = ").1)
          [("email", Value.str "a@b.c")])
        == pyStr (eval_value (pyStrip (splitFirst "email = \x27a@b.c\x27" " = ").2)
          [("email", Value.str "a@b.c")])) :=
  equality_condition_str_coercion.1 "email = \x27a@b.c\x27" [("email", Value.str "a@b.c")]
    (by decide)

/-- C5 counterexample: a field with no transformation and no lookup
chain whose destination column is user_id is not passed through: with
an empty id-mapping cache the written value is None although the source
value is the string hello. -/
theorem raw_passthrough_user_id_counterexample :
    get_field_value ⟨[], [], []⟩ "tenant_db" [("legacy_user", Value.str "hello")]
        "legacy_user" "user_id" Option.none Option.none = Value.none
    ∧ rowGet [("legacy_user", Value.str "hello")] "legacy_user" = Value.str "hello"
    ∧ Value.none ≠ Value.str "hello" := by
  refine ⟨by decide, by decide, by decide⟩

/-- C5 amended: for every destination column other than user_id, a
field with no transformation expression and no lookup chain is written
with exactly the source row value of its mapped source column; a
user_id destination is instead answered from the users/username
id-mapping cache or set to None. -/
theorem raw_passthrough_amended :
    ∀ (env : Env) (targetDb : String) (row : Row) (old_field new_field : String),
      new_field ≠ "user_id" →
      get_field_value env targetDb row old_field new_field Option.none Option.none =
        rowGet row old_field := by
  intro env targetDb row old_field new_field h
  simp [get_field_value, h]

/-- C5 amended witness: the amended passthrough applied to a concrete
row and a destination column named email. -/
theorem raw_passthrough_amended_witness :
    get_field_value ⟨[], [], []⟩ "db" [("a", Value.int 1)] "a" "email"
        Option.none Option.none = rowGet [("a", Value.int 1)] "a" :=
  raw_passthrough_amended ⟨[], [], []⟩ "db" [("a", Value.int 1)] "a" "email" (by decide)

/-- C4 counterexample: a mapping document whose only Target carries the
unrecognized destination database kind bogus is loaded without any
error; loading performs no validation at all. -/
theorem unrecognized_db_kind_load_succeeds :
    loadMappings [("accounts", [("account_name",
        Mapping.newFormat [{ db := some "bogus", table := "site", column := "site_name" }])])]
      = Except.ok [("accounts", [("account_name",
        Mapping.newFormat [{ db := some "bogus", table := "site", column := "site_name" }])])] :=
  rfl

/-- C4 amended: loading accepts every parsed mapping document, and a
Target whose declared database kind is neither tenant nor central is
silently excluded by target grouping for both destination kinds rather
than rejected. -/
theorem unrecognized_db_kind_silently_skipped :
    (∀ doc : MappingDoc, loadMappings doc = Except.ok doc)
    ∧ ∀ (old_field : String) (tg : Target) (d : String),
        tg.db = some d → d ≠ "tenant" → d ≠ "central" →
        group_targets [(old_field, Mapping.newFormat [tg])] "tenant" = []
        ∧ group_targets [(old_field, Mapping.newFormat [tg])] "central" = [] := by
  refine ⟨fun doc => rfl, ?_⟩
  intro old_field tg d hdb ht hc
  have hd : tg.db.getD "tenant" = d := by rw [hdb]; rfl
  cases hu : pyStartsWith old_field "_" <;>
    constructor <;>
    simp [group_targets, hu, hd, ht, hc]

/-- C4 amended witness: the amended grouping behavior at the concrete
bogus-kind target. -/
theorem unrecognized_db_kind_silently_skipped_witness :
    group_targets [("account_name",
        Mapping.newFormat [{ db := some "bogus", table := "site", column := "site_name" }])]
      "tenant" = []
    ∧ group_targets [("account_name",
        Mapping.newFormat [{ db := some "bogus", table := "site", column := "site_name" }])]
      "central" = [] :=
  unrecognized_db_kind_silently_skipped.2 "account_name"
    { db := some "bogus", table := "site", column := "site_name" } "bogus"
    rfl (by decide) (by decide)

/-- C2: the spec scenario chain (read PatientID from the source row,
look it up in the legacy patients table returning username, resolve
username against the new users table) resolves to 42 through the
id-mapping cache entry users.username.alice -> 42; and in general a
final-resolution step returns a truthy cache hit without touching the
destination database, and falls back to the direct destination query
exactly on a cache miss. -/
theorem fk_chain_scenario_and_cache_first :
    resolve_fk_chain
        ⟨[("patients", [[("PatientID", Value.str "PAT001"), ("username", Value.str "alice")]])],
          [], [⟨"users", "username", Value.str "alice", 42⟩]⟩
        "tenant_db" [("PatientID", Value.str "PAT001")]
        [{ old_table := some "series", old_column := some "PatientID" },
         { lookup_in := some "patients", lookup_column := some "PatientID",
           return_column := some "username" },
         { new_table := some "users", new_column := some "username" }] = some 42
    ∧ (∀ (env : Env) (targetDb : String) (sr : Row) (step : ChainStep)
         (rest : List ChainStep) (idx : Nat) (curr : Value) (n : Int),
        (strTruthy step.lookup_in && strTruthy step.lookup_column) = false →
        strTruthy step.new_table = true → strTruthy step.new_column = true →
        cacheResolve env.cache (step.new_table.getD "") (step.new_column.getD "") curr = some n →
        n ≠ 0 →
        resolveGo env targetDb sr (step :: rest) (idx + 1) curr = some n)
    ∧ (∀ (env : Env) (targetDb : String) (sr : Row) (step : ChainStep)
         (rest : List ChainStep) (idx : Nat) (curr : Value),
        (strTruthy step.lookup_in && strTruthy step.lookup_column) = false →
        strTruthy step.new_table = true → strTruthy step.new_column = true →
        cacheResolve env.cache (step.new_table.getD "") (step.new_column.getD "") curr
          = Option.none →
        resolveGo env targetDb sr (step :: rest) (idx + 1) curr =
          lookup_in_new_schema env.newDB targetDb (step.new_table.getD "")
            (step.new_column.getD "") curr) := by
  refine ⟨by decide, ?_, ?_⟩
  · intro env targetDb sr step rest idx curr n hlk hnt hnc hcache hn
    simp [resolveGo, hlk, hnt, hnc, hcache, hn]
  · intro env targetDb sr step rest idx curr hlk hnt hnc hcache
    simp [resolveGo, hlk, hnt, hnc, hcache]

/-- C2 witness: the cache-first clause and the fallback clause applied
at a concrete final-resolution step. -/
theorem fk_chain_scenario_and_cache_first_witness :
    resolveGo ⟨[], [], [⟨"users", "username", Value.str "a", 7⟩]⟩ "db" []
        [{ new_table := some "users", new_column := some "username" }] 1 (Value.str "a")
      = some 7
    ∧ resolveGo ⟨[], [], []⟩ "db" []
        [{ new_table := some "users", new_column := some "username" }] 1 (Value.str "a")
      = lookup_in_new_schema [] "db" "users" "username" (Value.str "a") :=
  ⟨fk_chain_scenario_and_cache_first.2.1
      ⟨[], [], [⟨"users", "username", Value.str "a", 7⟩]⟩ "db" []
      { new_table := some "users", new_column := some "username" } [] 0 (Value.str "a") 7
      (by decide) (by decide) (by decide) (by decide) (by decide),
   fk_chain_scenario_and_cache_first.2.2 ⟨[], [], []⟩ "db" []
      { new_table := some "users", new_column := some "username" } [] 0 (Value.str "a")
      (by decide) (by decide) (by decide) (by decide)⟩

/-- C7: a resolution miss is not an error: a falsy step-0 source value
aborts FK chain resolution with None; an intra-source hop whose legacy
lookup finds no row aborts resolution with None; a field whose chain
resolution misses receives the value None; and the insert data built
for the row records that destination field as None, so the row and the
remaining rows keep being processed. -/
theorem resolution_miss_returns_null :
    (∀ (env : Env) (targetDb : String) (sr : Row) (step : ChainStep)
       (rest : List ChainStep),
      (match step.old_column with
        | some c => rowGet sr c
        | Option.none => Value.none).truthy = false →
      resolve_fk_chain env targetDb sr (step :: rest) = Option.none)
    ∧ (∀ (env : Env) (targetDb : String) (sr : Row) (step : ChainStep)
         (rest : List ChainStep) (idx : Nat) (curr v : Value),
        (if idx == 0 then
          (match step.old_column with
            | some c => rowGet sr c
            | Option.none => Value.none)
         else curr) = v →
        v.truthy = true →
        (strTruthy step.lookup_in && strTruthy step.lookup_column) = true →
        lookup_in_old_schema env.oldDB (step.lookup_in.getD "") (step.lookup_column.getD "") v
          = Option.none →
        resolveGo env targetDb sr (step :: rest) idx curr = Option.none)
    ∧ (∀ (env : Env) (targetDb : String) (row : Row) (old_field new_field : String)
         (sql : Option String) (chain : List ChainStep),
        chain ≠ [] →
        resolve_fk_chain env targetDb row chain = Option.none →
        get_field_value env targetDb row old_field new_field sql (some chain) = Value.none)
    ∧ (∀ (env : Env) (targetDb : String) (row : Row) (old_field new_field : String)
         (chain : List ChainStep),
        chain ≠ [] →
        resolve_fk_chain env targetDb row chain = Option.none →
        buildInsertData env targetDb row
            [{ old_field := old_field, new_field := new_field, lookup_chain := some chain }]
          = [(new_field, Value.none)]) := by
  have hmain : ∀ (env : Env) (targetDb : String) (sr : Row) (step : ChainStep)
      (rest : List ChainStep) (idx : Nat) (curr v : Value),
      (if idx == 0 then
        (match step.old_column with
          | some c => rowGet sr c
          | Option.none => Value.none)
       else curr) = v →
      v.truthy = true →
      (strTruthy step.lookup_in && strTruthy step.lookup_column) = true →
      lookup_in_old_schema env.oldDB (step.lookup_in.getD "") (step.lookup_column.getD "") v
        = Option.none →
      resolveGo env targetDb sr (step :: rest) idx curr = Option.none := by
    intro env targetDb sr step rest idx curr v hv htr hlk hmiss
    rw [Bool.and_eq_true] at hlk
    obtain ⟨hl1, hl2⟩ := hlk
    cases hidx : (idx == 0)
    · rw [hidx] at hv
      simp only [Bool.false_eq_true, if_false] at hv
      subst hv
      simp [resolveGo, hidx, hl1, hl2, hmiss]
    · rw [hidx] at hv
      simp only [if_true] at hv
      simp [resolveGo, hidx, hv, htr, hl1, hl2, hmiss]
  have hchain : ∀ (env : Env) (targetDb : String) (row : Row) (old_field new_field : String)
      (sql : Option String) (chain : List ChainStep),
      chain ≠ [] →
      resolve_fk_chain env targetDb row chain = Option.none →
      get_field_value env targetDb row old_field new_field sql (some chain) = Value.none := by
    intro env targetDb row old_field new_field sql chain hne hmiss
    have hempty : chain.isEmpty = false := by
      cases chain
      · exact absurd rfl hne
      · rfl
    simp [get_field_value, hempty, hmiss]
  refine ⟨?_, hmain, hchain, ?_⟩
  · intro env targetDb sr step rest hfalsy
    simp [resolve_fk_chain, resolveGo, hfalsy]
  · intro env targetDb row old_field new_field chain hne hmiss
    simp [buildInsertData, strTruthy, rowSet, hchain env targetDb row old_field new_field
      Option.none chain hne hmiss]

/-- C7 witness: the four miss clauses applied at concrete inputs: a
source row without the declared step-0 column, an intra-source hop into
an empty legacy database, and a one-step chain that misses, written as
a None field value and a None entry in the built insert data. -/
theorem resolution_miss_returns_null_witness :
    resolve_fk_chain ⟨[], [], []⟩ "db" [] [{ old_column := some "PatientID" }] = Option.none
    ∧ resolveGo ⟨[], [], []⟩ "db" []
        [{ lookup_in := some "patients", lookup_column := some "PatientID" }] 1
        (Value.str "PAT001") = Option.none
    ∧ get_field_value ⟨[], [], []⟩ "db" [] "PatientID" "patient_fk" Option.none
        (some [{ old_column := some "PatientID" }]) = Value.none
    ∧ buildInsertData ⟨[], [], []⟩ "db" []
        [{ old_field := "PatientID", new_field := "patient_fk",
           lookup_chain := some [{ old_column := some "PatientID" }] }]
      = [("patient_fk", Value.none)] :=
  ⟨resolution_miss_returns_null.1 ⟨[], [], []⟩ "db" [] { old_column := some "PatientID" } []
      (by decide),
   resolution_miss_returns_null.2.1 ⟨[], [], []⟩ "db" []
      { lookup_in := some "patients", lookup_column := some "PatientID" } [] 1
      (Value.str "PAT001") (Value.str "PAT001") (by decide) (by decide) (by decide) (by decide),
   resolution_miss_returns_null.2.2.1 ⟨[], [], []⟩ "db" [] "PatientID" "patient_fk"
      Option.none [{ old_column := some "PatientID" }] (by decide) (by decide),
   resolution_miss_returns_null.2.2.2 ⟨[], [], []⟩ "db" [] "PatientID" "patient_fk"
      [{ old_column := some "PatientID" }] (by decide) (by decide)⟩

/-- C3: when the central-registry upsert fails, migrate_site records
the sites_registry error, performs no table migration at all (the only
action is the failed registration attempt), migrates zero rows into
zero tenant and central tables, and returns that report to the caller
at once. -/
theorem registry_failure_aborts_site :
    ∀ (env : SiteEnv) (mappingKeys : List String) (site_info : Row) (e : String),
      (rowGet site_info "username").truthy = true →
      env.registerResult = Except.error e →
      migrate_site env mappingKeys site_info =
        (Except.ok ⟨0, 0, 0, [("sites_registry", e)]⟩, [Event.register]) := by
  intro env mappingKeys site_info e hu hreg
  simp [migrate_site, hu, hreg]

/-- C3 witness: the abort behavior at a concrete failing registry
environment. -/
theorem registry_failure_aborts_site_witness :
    migrate_site
        ⟨Except.error "duplicate key", fun _ => some ["username"], fun _ _ => Except.ok 5⟩
        ["patients"] [("username", Value.str "alice")] =
      (Except.ok ⟨0, 0, 0, [("sites_registry", "duplicate key")]⟩, [Event.register]) :=
  registry_failure_aborts_site
    ⟨Except.error "duplicate key", fun _ => some ["username"], fun _ _ => Except.ok 5⟩
    ["patients"] [("username", Value.str "alice")] "duplicate key" (by decide) rfl

/-- C10: migrate_site raises exactly when site_info has no truthy
username entry: the raise happens before the registry write and before
any table migration (the action list is empty), and with a truthy
username migrate_site never raises, whatever the environment does. -/
theorem username_required_and_only_raise :
    (∀ (env : SiteEnv) (mappingKeys : List String) (site_info : Row),
      isRaise (migrate_site env mappingKeys site_info).1 = true ↔
        (rowGet site_info "username").truthy = false)
    ∧ (∀ (env : SiteEnv) (mappingKeys : List String) (site_info : Row),
        (rowGet site_info "username").truthy = false →
        migrate_site env mappingKeys site_info =
          (Except.error "site_info must contain \x27username\x27", [])) := by
  have hraise : ∀ (env : SiteEnv) (mappingKeys : List String) (site_info : Row),
      (rowGet site_info "username").truthy = false →
      migrate_site env mappingKeys site_info =
        (Except.error "site_info must contain \x27username\x27", []) := by
    intro env mappingKeys site_info hu
    simp [migrate_site, hu]
  refine ⟨?_, hraise⟩
  intro env mappingKeys site_info
  cases hu : (rowGet site_info "username").truthy
  · simp [hraise env mappingKeys site_info hu, isRaise]
  · cases hreg : env.registerResult <;>
      simp [migrate_site, hu, hreg, isRaise]

/-- C10 witness: a site_info without username raises, and a concrete
run with a username does not raise. -/
theorem username_required_and_only_raise_witness :
    migrate_site ⟨Except.ok (), fun _ => Option.none, fun _ _ => Except.ok 0⟩ [] [] =
        (Except.error "site_info must contain \x27username\x27", [])
    ∧ (isRaise (migrate_site ⟨Except.ok (), fun _ => Option.none, fun _ _ => Except.ok 0⟩ []
          [("username", Value.str "alice")]).1 = true ↔
        (rowGet [("username", Value.str "alice")] "username").truthy = false) :=
  ⟨username_required_and_only_raise.2
      ⟨Except.ok (), fun _ => Option.none, fun _ _ => Except.ok 0⟩ [] [] (by decide),
   username_required_and_only_raise.1
      ⟨Except.ok (), fun _ => Option.none, fun _ _ => Except.ok 0⟩ []
      [("username", Value.str "alice")]⟩

/-- Every edge of the fixed dependency table strictly decreases rank. -/
theorem rank_lt_of_mem_depsOf : ∀ (t p : String), p ∈ depsOf t → rank p < rank t := by
  intro t p hp
  unfold depsOf at hp
  cases hfind : dependenciesTable.find? (fun q => q.1 == t) with
  | none => rw [hfind] at hp; simp at hp
  | some pr =>
    rw [hfind] at hp
    have hmem : pr ∈ dependenciesTable := List.mem_of_find?_eq_some hfind
    have heq : pr.1 = t := by
      have := List.find?_some hfind
      simpa using this
    have hall : ∀ q ∈ dependenciesTable, ∀ x ∈ q.2, rank x < rank q.1 := by decide
    rw [← heq]
    exact hall pr hmem p hp

/-- Restricted dependencies lie in the input table set. -/
theorem depGraph_sub (tables : List String) :
    ∀ (t p : String), p ∈ depGraph tables t → p ∈ tables := by
  intro t p hp
  unfold depGraph at hp
  by_cases ht : t ∈ tables
  · rw [if_pos ht] at hp
    have := List.mem_filter.mp hp
    simpa using this.2
  · rw [if_neg ht] at hp
    simp at hp

/-- Restricted dependencies strictly decrease rank. -/
theorem depGraph_rank (tables : List String) :
    ∀ (t p : String), p ∈ depGraph tables t → rank p < rank t := by
  intro t p hp
  unfold depGraph at hp
  by_cases ht : t ∈ tables
  · rw [if_pos ht] at hp
    exact rank_lt_of_mem_depsOf t p (List.mem_filter.mp hp).1
  · rw [if_neg ht] at hp
    simp at hp

/-- visitListWith preserves the currently-visiting set when its step
function does. -/
theorem visitListWith_temp_eq (f : String → DfsState → DfsState)
    (hf : ∀ (d : String) (s : DfsState), (f d s).temp = s.temp) :
    ∀ (ds : List String) (s : DfsState), (visitListWith f ds s).temp = s.temp := by
  intro ds
  induction ds with
  | nil => intro s; rfl
  | cons d ds ih =>
    intro s
    show (visitListWith f ds (f d s)).temp = s.temp
    rw [ih, hf]

/-- visit restores the currently-visiting set: the node pushed at entry
is removed again at exit. -/
theorem visit_temp_eq (g : String → List String) :
    ∀ (fuel : Nat) (t : String) (s : DfsState), (visit g fuel t s).temp = s.temp := by
  intro fuel
  induction fuel with
  | zero => intro t s; rfl
  | succ fuel ih =>
    intro t s
    show (visit g (fuel + 1) t s).temp = s.temp
    rw [visit]
    split
    · rfl
    · split
      · rfl
      · show ((visitListWith (fun d s' => visit g fuel d s') (g t)
            { s with temp := t :: s.temp }).temp.erase t) = s.temp
        rw [visitListWith_temp_eq _ (fun d s' => ih d s')]
        exact List.erase_cons_head t s.temp

/-- visitListWith only prepends fresh nodes to the visited list and
appends the same nodes to the output, given a step function that does
so. -/
theorem visitListWith_visited_delta (f : String → DfsState → DfsState)
    (tables : List String)
    (hftemp : ∀ (d : String) (s : DfsState), (f d s).temp = s.temp)
    (ds : List String)
    (hf : ∀ d ∈ ds, ∀ s : DfsState,
      ∃ pre : List String,
        (f d s).visited = pre ++ s.visited
        ∧ (f d s).sortedTables = s.sortedTables ++ pre.reverse
        ∧ pre.Nodup
        ∧ ∀ x ∈ pre, x ∈ tables ∧ x ∉ s.temp ∧ x ∉ s.visited) :
    ∀ s : DfsState,
      ∃ pre : List String,
        (visitListWith f ds s).visited = pre ++ s.visited
        ∧ (visitListWith f ds s).sortedTables = s.sortedTables ++ pre.reverse
        ∧ pre.Nodup
        ∧ ∀ x ∈ pre, x ∈ tables ∧ x ∉ s.temp ∧ x ∉ s.visited := by
  induction ds with
  | nil =>
    intro s
    exact ⟨[], by simp [visitListWith]⟩
  | cons d ds ih =>
    intro s
    obtain ⟨pre1, hv1, hs1, hn1, hx1⟩ := hf d (List.mem_cons_self d ds) s
    obtain ⟨pre2, hv2, hs2, hn2, hx2⟩ :=
      ih (fun e he => hf e (List.mem_cons_of_mem d he)) (f d s)
    refine ⟨pre2 ++ pre1, ?_, ?_, ?_, ?_⟩
    · show (visitListWith f ds (f d s)).visited = (pre2 ++ pre1) ++ s.visited
      rw [hv2, hv1, List.append_assoc]
    · show (visitListWith f ds (f d s)).sortedTables
        = s.sortedTables ++ (pre2 ++ pre1).reverse
      rw [hs2, hs1, List.reverse_append, List.append_assoc]
    · refine List.Nodup.append hn2 hn1 ?_
      intro x hx2m hx1m
      have := (hx2 x hx2m).2.2
      rw [hv1] at this
      exact this (List.mem_append_left _ hx1m)
    · intro x hx
      rcases List.mem_append.mp hx with h2 | h1
      · obtain ⟨ht, htm, hvm⟩ := hx2 x h2
        rw [hftemp] at htm
        rw [hv1] at hvm
        exact ⟨ht, htm, fun hxv => hvm (List.mem_append_right _ hxv)⟩
      · exact hx1 x h1

/-- visit only prepends fresh nodes from the table set to the visited
list and appends the same nodes to the output. -/
theorem visit_visited_delta (g : String → List String) (tables : List String)
    (hg : ∀ (t p : String), p ∈ g t → p ∈ tables) :
    ∀ (fuel : Nat) (t : String) (s : DfsState), t ∈ tables →
      ∃ pre : List String,
        (visit g fuel t s).visited = pre ++ s.visited
        ∧ (visit g fuel t s).sortedTables = s.sortedTables ++ pre.reverse
        ∧ pre.Nodup
        ∧ ∀ x ∈ pre, x ∈ tables ∧ x ∉ s.temp ∧ x ∉ s.visited := by
  intro fuel
  induction fuel with
  | zero => intro t s _; exact ⟨[], by simp [visit]⟩
  | succ fuel ih =>
    intro t s ht
    rw [visit]
    split
    · exact ⟨[], by simp⟩
    · split
      · exact ⟨[], by simp⟩
      · rename_i htemp hvis
        obtain ⟨pre2, hv2, hs2, hn2, hx2⟩ :=
          visitListWith_visited_delta (fun d s' => visit g fuel d s') tables
            (fun d s' => visit_temp_eq g fuel d s') (g t)
            (fun d hd s' => ih d s' (hg t d hd))
            { s with temp := t :: s.temp }
        refine ⟨t :: pre2, ?_, ?_, ?_, ?_⟩
        · show t :: (visitListWith _ (g t) _).visited = (t :: pre2) ++ s.visited
          rw [hv2]
          rfl
        · show (visitListWith _ (g t) _).sortedTables ++ [t]
            = s.sortedTables ++ (t :: pre2).reverse
          rw [hs2, List.reverse_cons, ← List.append_assoc]
        · refine List.nodup_cons.mpr ⟨?_, hn2⟩
          intro hmem
          exact (hx2 t hmem).2.1 (List.mem_cons_self t s.temp)
        · intro x hx
          rcases List.mem_cons.mp hx with rfl | h2
          · exact ⟨ht, htemp, hvis⟩
          · obtain ⟨hxt, hxtemp, hxv⟩ := hx2 x h2
            exact ⟨hxt, fun hmem => hxtemp (List.mem_cons_of_mem t hmem), hxv⟩

/-- visitListWith establishes the ordering invariant and visits every
listed node, given a step function that does. -/
theorem visitListWith_complete (f : String → DfsState → DfsState)
    (g : String → List String) (T : List String)
    (hftemp : ∀ (d : String) (s : DfsState), (f d s).temp = s.temp)
    (ds : List String)
    (hstep : ∀ d ∈ ds, ∀ s : DfsState, s.temp = T →
      s.visited.Nodup → SortedInv g s →
      (SortedInv g (f d s) ∧ (f d s).visited.Nodup ∧ d ∈ (f d s).visited
        ∧ (∀ y ∈ s.visited, y ∈ (f d s).visited)
        ∧ (∀ x ∈ T, x ∈ (f d s).visited → x ∈ s.visited))) :
    ∀ s : DfsState, s.temp = T → s.visited.Nodup → SortedInv g s →
      (SortedInv g (visitListWith f ds s)
        ∧ (visitListWith f ds s).visited.Nodup
        ∧ (∀ d ∈ ds, d ∈ (visitListWith f ds s).visited)
        ∧ (∀ y ∈ s.visited, y ∈ (visitListWith f ds s).visited)
        ∧ (∀ x ∈ T, x ∈ (visitListWith f ds s).visited → x ∈ s.visited)) := by
  induction ds with
  | nil =>
    intro s hT hnd hsi
    exact ⟨hsi, hnd, by simp, fun y hy => hy, fun x _ hx => hx⟩
  | cons d ds ih =>
    intro s hT hnd hsi
    obtain ⟨hsi1, hnd1, hd1, hmono1, hsafe1⟩ :=
      hstep d (List.mem_cons_self d ds) s hT hnd hsi
    have hT1 : (f d s).temp = T := by rw [hftemp, hT]
    obtain ⟨hsi2, hnd2, hds2, hmono2, hsafe2⟩ :=
      ih (fun e he => hstep e (List.mem_cons_of_mem d he)) (f d s) hT1 hnd1 hsi1
    refine ⟨hsi2, hnd2, ?_, ?_, ?_⟩
    · intro e he
      rcases List.mem_cons.mp he with rfl | he'
      · exact hmono2 e hd1
      · exact hds2 e he'
    · exact fun y hy => hmono2 y (hmono1 y hy)
    · exact fun x hx hxv => hsafe1 x hx (hsafe2 x hx hxv)

/-- When the fuel exceeds the number of input tables not yet marked as
currently visiting, visit establishes the ordering invariant, keeps the
visited list duplicate-free, visits its argument, only grows the
visited list, and never adds a currently-visiting node to it.  The fuel
hypothesis is dischargeable at every reachable call because the marker
set is a duplicate-free subset of the input tables, so the fuel bound
used by sort_targets_by_dependency never runs out: the embedded
recursion agrees with the unbounded Python recursion. -/
theorem visit_complete (g : String → List String) (tables : List String)
    (hg : ∀ (t p : String), p ∈ g t → p ∈ tables)
    (hrk : ∀ (t p : String), p ∈ g t → rank p < rank t) :
    ∀ (fuel : Nat) (t : String) (s : DfsState),
      tables.length + 1 ≤ fuel + s.temp.length →
      (∀ x ∈ s.temp, rank t < rank x) →
      t ∈ tables →
      s.temp.Nodup → (∀ x ∈ s.temp, x ∈ tables) →
      s.visited.Nodup → SortedInv g s →
      (SortedInv g (visit g fuel t s)
        ∧ (visit g fuel t s).visited.Nodup
        ∧ t ∈ (visit g fuel t s).visited
        ∧ (∀ y ∈ s.visited, y ∈ (visit g fuel t s).visited)
        ∧ (∀ x ∈ s.temp, x ∈ (visit g fuel t s).visited → x ∈ s.visited)) := by
  intro fuel
  induction fuel with
  | zero =>
    intro t s hfuel _ _ hndT hsubT _ _
    exfalso
    have hle : s.temp.length ≤ tables.length :=
      (List.Nodup.subperm hndT fun _ hx => hsubT _ hx).length_le
    omega
  | succ fuel ih =>
    intro t s hfuel hrank ht hndT hsubT hndV hsi
    rw [visit]
    split
    · rename_i htemp
      exact absurd (hrank t htemp) (lt_irrefl _)
    · split
      · rename_i hvis
        exact ⟨hsi, hndV, hvis, fun y hy => hy, fun x _ hx => hx⟩
      · rename_i htemp hvis
        have hstep : ∀ d ∈ g t, ∀ s' : DfsState, s'.temp = t :: s.temp →
            s'.visited.Nodup → SortedInv g s' →
            (SortedInv g (visit g fuel d s') ∧ (visit g fuel d s').visited.Nodup
              ∧ d ∈ (visit g fuel d s').visited
              ∧ (∀ y ∈ s'.visited, y ∈ (visit g fuel d s').visited)
              ∧ (∀ x ∈ t :: s.temp, x ∈ (visit g fuel d s').visited → x ∈ s'.visited)) := by
          intro d hd s' hT' hnd' hsi'
          have h1 : tables.length + 1 ≤ fuel + s'.temp.length := by
            rw [hT']
            simp only [List.length_cons]
            omega
          have h2 : ∀ x ∈ s'.temp, rank d < rank x := by
            rw [hT']
            intro x hx
            rcases List.mem_cons.mp hx with rfl | hx'
            · exact hrk x d hd
            · exact lt_trans (hrk t d hd) (hrank x hx')
          have h3 : s'.temp.Nodup := by
            rw [hT']
            exact List.nodup_cons.mpr ⟨htemp, hndT⟩
          have h4 : ∀ x ∈ s'.temp, x ∈ tables := by
            rw [hT']
            intro x hx
            rcases List.mem_cons.mp hx with rfl | hx'
            · exact ht
            · exact hsubT x hx'
          have hmain := ih d s' h1 h2 (hg t d hd) h3 h4 hnd' hsi'
          refine ⟨hmain.1, hmain.2.1, hmain.2.2.1, hmain.2.2.2.1, ?_⟩
          rw [← hT']
          exact hmain.2.2.2.2
        obtain ⟨hsi2, hnd2, hds2, hmono2, hsafe2⟩ :=
          visitListWith_complete (fun d s' => visit g fuel d s') g (t :: s.temp)
            (fun d s' => visit_temp_eq g fuel d s') (g t) hstep
            { s with temp := t :: s.temp } rfl hndV hsi
        have htne : t ∉ (visitListWith (fun d s' => visit g fuel d s') (g t)
            { s with temp := t :: s.temp }).visited :=
          fun hmem => hvis (hsafe2 t (List.mem_cons_self t s.temp) hmem)
        refine ⟨?_, ?_, ?_, ?_, ?_⟩
        · intro l₁ u l₂ heq p hp
          match l₁, heq with
          | [], heq =>
            have h1 := List.head_eq_of_cons_eq heq
            have h2 := List.tail_eq_of_cons_eq heq
            subst h1
            rw [← h2]
            exact hds2 p hp
          | a :: l₁', heq =>
            have h2 := List.tail_eq_of_cons_eq heq
            exact hsi2 l₁' u l₂ h2 p hp
        · exact List.nodup_cons.mpr ⟨htne, hnd2⟩
        · exact List.mem_cons_self t _
        · exact fun y hy => List.mem_cons_of_mem t (hmono2 y hy)
        · intro x hx hxv
          rcases List.mem_cons.mp hxv with rfl | hxv'
          · exact absurd hx htemp
          · exact hsafe2 x (List.mem_cons_of_mem t hx) hxv'

/-- The top-level loop of the sort preserves all invariants, visits
every processed table, and only ever visits input tables. -/
theorem sort_fold_spec (tables : List String) :
    ∀ ts : List String, (∀ t ∈ ts, t ∈ tables) →
    ∀ s : DfsState, s.temp = [] → s.visited.Nodup →
      SortedInv (depGraph tables) s →
      s.sortedTables = s.visited.reverse → (∀ y ∈ s.visited, y ∈ tables) →
      ((ts.foldl (fun s t => if t ∈ s.visited then s
          else visit (depGraph tables) (tables.length + 1) t s) s).temp = []
      ∧ (ts.foldl (fun s t => if t ∈ s.visited then s
          else visit (depGraph tables) (tables.length + 1) t s) s).visited.Nodup
      ∧ SortedInv (depGraph tables) (ts.foldl (fun s t => if t ∈ s.visited then s
          else visit (depGraph tables) (tables.length + 1) t s) s)
      ∧ (ts.foldl (fun s t => if t ∈ s.visited then s
          else visit (depGraph tables) (tables.length + 1) t s) s).sortedTables
        = (ts.foldl (fun s t => if t ∈ s.visited then s
          else visit (depGraph tables) (tables.length + 1) t s) s).visited.reverse
      ∧ (∀ t ∈ ts, t ∈ (ts.foldl (fun s t => if t ∈ s.visited then s
          else visit (depGraph tables) (tables.length + 1) t s) s).visited)
      ∧ (∀ y ∈ s.visited, y ∈ (ts.foldl (fun s t => if t ∈ s.visited then s
          else visit (depGraph tables) (tables.length + 1) t s) s).visited)
      ∧ (∀ y ∈ (ts.foldl (fun s t => if t ∈ s.visited then s
          else visit (depGraph tables) (tables.length + 1) t s) s).visited, y ∈ tables)) := by
  intro ts
  induction ts with
  | nil =>
    intro _ s h1 h2 h3 h4 h5
    exact ⟨h1, h2, h3, h4, by simp, fun y hy => hy, h5⟩
  | cons t ts ih =>
    intro hsub s h1 h2 h3 h4 h5
    rw [List.foldl_cons]
    by_cases hv : t ∈ s.visited
    · rw [if_pos hv]
      have hrest := ih (fun e he => hsub e (List.mem_cons_of_mem t he)) s h1 h2 h3 h4 h5
      refine ⟨hrest.1, hrest.2.1, hrest.2.2.1, hrest.2.2.2.1, ?_,
        hrest.2.2.2.2.2.1, hrest.2.2.2.2.2.2⟩
      intro e he
      rcases List.mem_cons.mp he with rfl | he'
      · exact hrest.2.2.2.2.2.1 e hv
      · exact hrest.2.2.2.2.1 e he'
    · rw [if_neg hv]
      have ht : t ∈ tables := hsub t (List.mem_cons_self t ts)
      obtain ⟨hsi', hnd', ht', hmono', _⟩ :=
        visit_complete (depGraph tables) tables (depGraph_sub tables) (depGraph_rank tables)
          (tables.length + 1) t s
          (by rw [h1]; simp)
          (by rw [h1]; intro x hx; simp at hx)
          ht
          (by rw [h1]; exact List.nodup_nil)
          (by rw [h1]; intro x hx; simp at hx)
          h2 h3
      have htemp' : (visit (depGraph tables) (tables.length + 1) t s).temp = [] := by
        rw [visit_temp_eq, h1]
      obtain ⟨pre, hdv, hds, _, hdx⟩ :=
        visit_visited_delta (depGraph tables) tables (depGraph_sub tables)
          (tables.length + 1) t s ht
      have h4' : (visit (depGraph tables) (tables.length + 1) t s).sortedTables
          = (visit (depGraph tables) (tables.length + 1) t s).visited.reverse := by
        rw [hds, h4, hdv, List.reverse_append]
      have h5' : ∀ y ∈ (visit (depGraph tables) (tables.length + 1) t s).visited,
          y ∈ tables := by
        intro y hy
        rw [hdv] at hy
        rcases List.mem_append.mp hy with hyp | hyv
        · exact (hdx y hyp).1
        · exact h5 y hyv
      have hrest := ih (fun e he => hsub e (List.mem_cons_of_mem t he))
        (visit (depGraph tables) (tables.length + 1) t s) htemp' hnd' hsi' h4' h5'
      refine ⟨hrest.1, hrest.2.1, hrest.2.2.1, hrest.2.2.2.1, ?_, ?_,
        hrest.2.2.2.2.2.2⟩
      · intro e he
        rcases List.mem_cons.mp he with rfl | he'
        · exact hrest.2.2.2.2.2.1 e ht'
        · exact hrest.2.2.2.2.1 e he'
      · exact fun y hy => hrest.2.2.2.2.2.1 y (hmono' y hy)

/-- C9: the target dependency sort is total and cycle tolerant: for
every input list of table names (including inputs whose restricted
dependency graph the code would treat as cyclic) it terminates without
raising, and returns a duplicate-free list containing exactly the input
tables.  The embedding is fuel-bounded, and visit_complete shows the
fuel used here never runs out, so totality of this definition reflects
termination of the unbounded recursion. -/
theorem sort_targets_total_each_table_once :
    ∀ tables : List String,
      (sort_targets_by_dependency tables).Nodup
      ∧ ∀ t : String, t ∈ sort_targets_by_dependency tables ↔ t ∈ tables := by
  intro tables
  have hsi0 : SortedInv (depGraph tables) ⟨[], [], []⟩ := by
    intro l₁ u l₂ heq p hp
    cases l₁ <;> simp at heq
  obtain ⟨_, hnodup, _, hsr, hmem, _, hsub⟩ :=
    sort_fold_spec tables tables (fun _ ht => ht) ⟨[], [], []⟩ rfl List.nodup_nil hsi0
      rfl (by intro y hy; simp at hy)
  have hdef : sort_targets_by_dependency tables
      = (tables.foldl (fun s t => if t ∈ s.visited then s
          else visit (depGraph tables) (tables.length + 1) t s) ⟨[], [], []⟩).sortedTables :=
    rfl
  constructor
  · rw [hdef, hsr]
    exact List.nodup_reverse.mpr hnodup
  · intro t
    rw [hdef, hsr, List.mem_reverse]
    exact ⟨fun h => hsub t h, fun h => hmem t h⟩

/-- C6: the per-source-table target dependency sort never places a
dependent table before a table it is declared to depend on when that
parent is present in the input set: whenever the output splits around a
table t, every declared dependency of t that is an input table already
occurs in the prefix.  The declared graph carries a strictly decreasing
rank, so every restriction of it is acyclic and the assumption of the
claim always holds. -/
theorem sort_targets_parents_first :
    ∀ (tables l₁ : List String) (t : String) (l₂ : List String) (p : String),
      sort_targets_by_dependency tables = l₁ ++ t :: l₂ →
      p ∈ depsOf t → p ∈ tables → p ∈ l₁ := by
  intro tables l₁ t l₂ p hsort hdep hptab
  have hsi0 : SortedInv (depGraph tables) ⟨[], [], []⟩ := by
    intro l₁ u l₂ heq q hq
    cases l₁ <;> simp at heq
  obtain ⟨_, _, hsi, hsr, _, _, hsub⟩ :=
    sort_fold_spec tables tables (fun _ ht => ht) ⟨[], [], []⟩ rfl List.nodup_nil hsi0
      rfl (by intro y hy; simp at hy)
  have hdef : sort_targets_by_dependency tables
      = (tables.foldl (fun s t => if t ∈ s.visited then s
          else visit (depGraph tables) (tables.length + 1) t s) ⟨[], [], []⟩).sortedTables :=
    rfl
  have hst : (tables.foldl (fun s t => if t ∈ s.visited then s
      else visit (depGraph tables) (tables.length + 1) t s) ⟨[], [], []⟩).sortedTables
      = l₁ ++ t :: l₂ := by rw [← hdef]; exact hsort
  have hvis : (tables.foldl (fun s t => if t ∈ s.visited then s
      else visit (depGraph tables) (tables.length + 1) t s) ⟨[], [], []⟩).visited
      = l₂.reverse ++ t :: l₁.reverse := by
    have h2 := congrArg List.reverse hsr
    rw [List.reverse_reverse] at h2
    rw [← h2, hst]
    simp
  have httab : t ∈ tables := by
    refine hsub t ?_
    rw [hvis]
    exact List.mem_append_right _ (List.mem_cons_self t l₁.reverse)
  have hpg : p ∈ depGraph tables t := by
    unfold depGraph
    rw [if_pos httab]
    exact List.mem_filter.mpr ⟨hdep, by simpa using hptab⟩
  have hres := hsi l₂.reverse t l₁.reverse hvis p hpg
  simpa using hres

/-- C6 witness: for the concrete input set of the spec example,
processing_jobs is placed after series and after users, and studies is
placed after patients. -/
theorem sort_targets_parents_first_witness :
    "series" ∈ ["patients", "studies", "series", "users"]
    ∧ "users" ∈ ["patients", "studies", "series", "users"]
    ∧ "patients" ∈ ["patients"] :=
  ⟨sort_targets_parents_first ["processing_jobs", "series", "studies", "patients", "users"]
      ["patients", "studies", "series", "users"] "processing_jobs" [] "series"
      (by decide) (by decide) (by decide),
   sort_targets_parents_first ["processing_jobs", "series", "studies", "patients", "users"]
      ["patients", "studies", "series", "users"] "processing_jobs" [] "users"
      (by decide) (by decide) (by decide),
   sort_targets_parents_first ["processing_jobs", "series", "studies", "patients", "users"]
      ["patients"] "studies" ["series", "users", "processing_jobs"] "patients"
      (by decide) (by decide) (by decide)⟩
